import Mathlib

/-!
Verification development for the deny_rust content-filtering engine.

The repository compiles a list of deny words into one of three matcher
backends (aho-corasick trie, double-array automaton, regex-alternation set),
and scans flat dictionaries, nested dynamic values and MessagePack byte
buffers for occurrences of the compiled patterns.

Modelling conventions:
- Unicode text is a list of codepoints (`Text := List Nat`); a byte buffer is
  a list of byte values (`Bytes := List Nat`).
- Rust `str::to_lowercase` is modelled per codepoint, mapping the ASCII
  uppercase range to lowercase; the repository's patterns and tests are ASCII.
- The external matching crates (aho-corasick, daachorse, regex) are modelled
  by their documented existence semantics: `is_match` on a compiled set of
  literal patterns holds exactly when some pattern occurs as a contiguous
  substring of the haystack.
-/

namespace DenyRust

/-- Unicode text as a list of codepoints. -/
abbrev Text := List Nat

/-- Codepoints of a Lean string literal; used to write concrete inputs. -/
def cp (s : String) : Text := s.data.map Char.toNat

/-- Model of Rust per-character lowercasing (`to_lowercase`): ASCII uppercase
letters are shifted to lowercase, all other codepoints are unchanged. -/
def lowerCp (c : Nat) : Nat := if 65 ≤ c ∧ c ≤ 90 then c + 32 else c

/-- Model of Rust `str::to_lowercase` on codepoint lists. -/
def toLowercase (s : Text) : Text := s.map lowerCp

/-- Predicate: `needle` occurs as a contiguous substring of `hay` (true at some offset
`i`, the next `needle.length` codepoints of `hay` equal `needle`). -/
def occursIn (needle hay : Text) : Bool :=
  (List.range (hay.length + 1)).any
    (fun i => decide ((hay.drop i).take needle.length = needle))

/-- Existence semantics shared by the matching crates: some pattern of the
compiled set occurs as a contiguous substring of the haystack.  Leftmost-first
match selection never changes this boolean answer. -/
def anyPatternIn (patterns : List Text) (hay : Text) : Bool :=
  patterns.any (fun p => occursIn p hay)

/-- Backend of `src/deny_list.rs`: aho-corasick backend, storing the compiled patterns. -/
structure DenyList where
  patterns : List Text

/-- Constructor `DenyList::new`: stores deny words lowercased before compilation
(`words.into_iter().map(|w| w.to_lowercase())`).  The aho-corasick build step
is modelled as total; no claim exercises its length-limit failure. -/
def DenyList.new (words : List Text) : DenyList :=
  ⟨words.map toLowercase⟩

/-- Query `DenyList::is_match` (via `impl Matcher for DenyList`): lowercases the
query text and asks the automaton for any match. -/
def DenyList.is_match (d : DenyList) (s : Text) : Bool :=
  anyPatternIn d.patterns (toLowercase s)

/-- Modelled from the spec: the trait method `Matcher::scan_str` is called by
`DenyList::scan_str` and `DenyListDaac::scan_str` but its declaration is
absent from `src/matcher.rs`; per the spec's single text-query contract
(§4.2) and the repository tests, which use `scan_str` interchangeably with
`is_match` on plain text, it is modelled as the `is_match` query itself. -/
def DenyList.scan_str (d : DenyList) (txt : Text) : Bool :=
  d.is_match txt

/-- Backend of `src/deny_list_daac.rs`: double-array aho-corasick backend. -/
structure DenyListDaac where
  patterns : List Text

/-- Constructor `DenyListDaac::new`: lowercases the words and builds a daachorse
double-array automaton.  The daachorse builder rejects (with an error mapped
to `Invalid patterns: ...` by `build_error`) an empty pattern collection,
patterns of length zero, and duplicate patterns; the repository's own test
comment records that empty word lists "may fail with daachorse". -/
def DenyListDaac.new (words : List Text) : Except String DenyListDaac :=
  let lows := words.map toLowercase
  if lows.isEmpty then
    Except.error "Invalid patterns: patterns must not be empty"
  else if lows.any List.isEmpty then
    Except.error "Invalid patterns: patterns must not contain empty entries"
  else if ¬ lows.Nodup then
    Except.error "Invalid patterns: patterns must not contain duplicate entries"
  else
    Except.ok ⟨lows⟩

/-- Query `DenyListDaac::is_match` (via `impl Matcher for DenyListDaac`): lowercases
the query and asks the leftmost-match iterator for any match. -/
def DenyListDaac.is_match (d : DenyListDaac) (s : Text) : Bool :=
  anyPatternIn d.patterns (toLowercase s)

/-- Backend of `src/deny_list_rs.rs`: regex-alternation backend; every word is escaped
as a literal (`regex::escape`), so the compiled set is the word list itself.
Note: unlike the two automaton backends, `DenyListRs::new` performs no
lowercasing of the words. -/
structure DenyListRs where
  patterns : List Text

/-- Constructor `DenyListRs::new`: escapes each word as a literal and compiles the set;
no case folding is applied.  Compilation of escaped literals is total. -/
def DenyListRs.new (words : List Text) : DenyListRs :=
  ⟨words⟩

/-- Query `DenyListRs::scan_str`, that is `self.rs.is_match(txt)` — the query text is not
lowercased either. -/
def DenyListRs.scan_str (r : DenyListRs) (txt : Text) : Bool :=
  anyPatternIn r.patterns txt

/-- C1: the claim states that every backend folds the query text with the
lowercase policy applied at construction, making matching case-insensitive
(`is_match(["BAD"], "this is bad")` true on every backend).  The code
contradicts this: `DenyListRs` never lowercases patterns or query text, so
its query on the claim's own example is false, while the aho-corasick
backend returns true.  The repository's test
`test_all_implementations_consistency` expects the regex backend to match
case-insensitively, so the code contradicts its own tests. -/
theorem c1_rs_case_sensitive_eval :
    (DenyListRs.new [cp "BAD"]).scan_str (cp "this is bad") = false ∧
    (DenyList.new [cp "BAD"]).is_match (cp "this is bad") = true := by
  constructor
  · decide
  · decide

/-- C2: the claim states that the three backends agree on every non-empty
pattern set and text.  Evaluated at the repository's own consistency-test
input (patterns `["test", "word"]`, text `"TEST"`), the trie backend and the
double-array backend both answer true while the regex backend answers false,
because it performs no case folding. -/
theorem c2_backends_disagree_eval :
    (DenyList.new [cp "test", cp "word"]).is_match (cp "TEST") = true ∧
    (DenyListDaac.new [cp "test", cp "word"]).map
      (fun d => d.is_match (cp "TEST")) = Except.ok true ∧
    (DenyListRs.new [cp "test", cp "word"]).scan_str (cp "TEST") = false := by
  refine ⟨by decide, ?_, by decide⟩
  rfl

/-- C8 counterexample: the claim states that construction accepts an empty
pattern list on every backend, but the daachorse builder used by
`DenyListDaac::new` rejects an empty pattern collection, so construction
fails there. -/
theorem c8_daac_rejects_empty :
    DenyListDaac.new ([] : List Text) =
      Except.error "Invalid patterns: patterns must not be empty" := by
  rfl

/-- C8 (amended): `DenyList` and `DenyListRs` accept the empty pattern list
and their compiled matchers return false on every text (the empty string
included); `DenyListDaac` construction fails on the empty pattern list. -/
theorem c8_empty_patterns_never_match (t : Text) :
    (DenyList.new []).is_match t = false ∧
    (DenyList.new []).scan_str t = false ∧
    (DenyListRs.new []).scan_str t = false ∧
    (DenyListDaac.new []).isOk = false := by
  refine ⟨rfl, rfl, rfl, rfl⟩

/-! ## Python dynamic values and the structural scanner (`src/matcher.rs`) -/

/-- Tagged union of the Python values reaching the scanners through pyo3:
strings, numbers, booleans, `None`, lists, dicts (association lists in
iteration order), and the container kinds the code does not handle
specially (tuples, sets). -/
inductive PyValue where
  | str (s : Text)
  | int (n : Int)
  | float (q : Rat)
  | bool (b : Bool)
  | none
  | list (xs : List PyValue)
  | dict (kvs : List (PyValue × PyValue))
  | tuple (xs : List PyValue)
  | set (xs : List PyValue)
deriving Repr

mutual

/-- Shared `Matcher::scan_any`: the recursive walk over a Python object.  A string
is tested with `is_match` (`f`); a dict is recursed over its values; a list
is recursed over its elements; everything else falls through to false.
`f` abstracts the backend's `is_match`. -/
def scanAny (f : Text → Bool) : PyValue → Bool
  | .str s => f s
  | .dict kvs => scanAnyVals f kvs
  | .list xs => scanAnyList f xs
  | _ => false

/-- Loop of `Matcher::scan_any` over list elements, in order,
short-circuiting on the first true. -/
def scanAnyList (f : Text → Bool) : List PyValue → Bool
  | [] => false
  | v :: vs => scanAny f v || scanAnyList f vs

/-- Loop of `Matcher::scan_any` over `dict.values()`, in iteration order,
short-circuiting on the first true. -/
def scanAnyVals (f : Text → Bool) : List (PyValue × PyValue) → Bool
  | [] => false
  | kv :: kvs => scanAny f kv.2 || scanAnyVals f kvs

end

mutual

/-- Specification-side collection of the string leaves `scan_any` can reach:
the string itself, list elements in order, and dict values in iteration
order; dict keys and all other scalars contribute nothing. -/
def strValues : PyValue → List Text
  | .str s => [s]
  | .dict kvs => strValuesVals kvs
  | .list xs => strValuesList xs
  | _ => []

/-- String leaves of a list of values, in order. -/
def strValuesList : List PyValue → List Text
  | [] => []
  | v :: vs => strValues v ++ strValuesList vs

/-- String leaves of a dict's values, in iteration order. -/
def strValuesVals : List (PyValue × PyValue) → List Text
  | [] => []
  | kv :: kvs => strValues kv.2 ++ strValuesVals kvs

end

/-- Shared `Matcher::scan`: iterate the flat dict's values; if a value extracts as
a string and `is_match` holds, return true; all other values are skipped. -/
def matcherScan (f : Text → Bool) : List (PyValue × PyValue) → Bool
  | [] => false
  | kv :: kvs =>
    (match kv.2 with
     | .str s => f s
     | _ => false) || matcherScan f kvs

mutual

theorem scanAny_eq_strValues (f : Text → Bool) :
    ∀ v, scanAny f v = (strValues v).any f
  | .str s => by simp [scanAny, strValues]
  | .dict kvs => by
      simpa [scanAny, strValues] using scanAnyVals_eq_strValues f kvs
  | .list xs => by
      simpa [scanAny, strValues] using scanAnyList_eq_strValues f xs
  | .int n => by simp [scanAny, strValues]
  | .float q => by simp [scanAny, strValues]
  | .bool b => by simp [scanAny, strValues]
  | .none => by simp [scanAny, strValues]
  | .tuple xs => by simp [scanAny, strValues]
  | .set xs => by simp [scanAny, strValues]

theorem scanAnyList_eq_strValues (f : Text → Bool) :
    ∀ xs, scanAnyList f xs = (strValuesList xs).any f
  | [] => by simp [scanAnyList, strValuesList]
  | v :: vs => by
      simp [scanAnyList, strValuesList, List.any_append,
        scanAny_eq_strValues f v, scanAnyList_eq_strValues f vs]

theorem scanAnyVals_eq_strValues (f : Text → Bool) :
    ∀ kvs, scanAnyVals f kvs = (strValuesVals kvs).any f
  | [] => by simp [scanAnyVals, strValuesVals]
  | kv :: kvs => by
      simp [scanAnyVals, strValuesVals, List.any_append,
        scanAny_eq_strValues f kv.2, scanAnyVals_eq_strValues f kvs]

end

/-- C5: `scan_any` performs the depth-first walk of the claim — a string is
tested with `is_match`, a list is recursed element by element in order, a
dict is recursed over its values only (keys never matched), other scalars
never match — so the result is exactly "some string leaf reachable through
list elements and dict values matches".  Consequently a structure whose only
leaves are non-strings (no reachable string leaf) returns false, and a
banned word at any depth returns true. -/
theorem c5_scan_any_reaches_exactly_string_leaves (f : Text → Bool) (v : PyValue) :
    scanAny f v = (strValues v).any f := by
  exact scanAny_eq_strValues f v

/-- C10: `scan_any` returns false (without raising — it is a total boolean
function) on every Python value that is not a str, dict, or list; in
particular a tuple containing a banned string is never detected even when
the matcher flags that string. -/
theorem c10_scan_any_false_on_unhandled_kinds (f : Text → Bool) (v : PyValue)
    (hs : ∀ s, v ≠ PyValue.str s)
    (hd : ∀ kvs, v ≠ PyValue.dict kvs)
    (hl : ∀ xs, v ≠ PyValue.list xs) :
    scanAny f v = false := by
  cases v with
  | str s => exact absurd rfl (hs s)
  | dict kvs => exact absurd rfl (hd kvs)
  | list xs => exact absurd rfl (hl xs)
  | int n => rfl
  | float q => rfl
  | bool b => rfl
  | none => rfl
  | tuple xs => rfl
  | set xs => rfl

/-- Witness for C10: a tuple containing the banned string `"bad"` is not
detected although the matcher itself flags `"bad"`. -/
theorem c10_scan_any_false_on_unhandled_kinds_witness :
    scanAny (occursIn (cp "bad")) (PyValue.tuple [PyValue.str (cp "bad")]) = false ∧
    occursIn (cp "bad") (cp "bad") = true := by
  refine ⟨?_, by decide⟩
  exact c10_scan_any_false_on_unhandled_kinds (occursIn (cp "bad"))
    (PyValue.tuple [PyValue.str (cp "bad")])
    (fun s h => by cases h) (fun kvs h => by cases h) (fun xs h => by cases h)

/-! ## Plugin façade (`src/deny_list_plugin.rs`) -/

/-- Record `PluginViolation`: the structured violation reported by the plugin. -/
structure PluginViolation where
  reason : String
  description : String
  code : String
  details : Option (List (PyValue × PyValue))
  plugin_name : String
  mcp_error_code : Option Int
deriving Repr

/-- Record `PluginResult`: outcome of a plugin hook. -/
structure PluginResult where
  continue_processing : Bool
  modified_payload : Option (List (PyValue × PyValue))
  violation : Option PluginViolation
  metadata : Option (List (PyValue × PyValue))
deriving Repr

/-- Facade `DenyListPlugin`: an aho-corasick automaton built by `AhoCorasick::new`
directly from `config.words` — unlike the backends of `deny_list.rs` and
`deny_list_daac.rs`, the words are not lowercased — plus a plugin name. -/
structure DenyListPlugin where
  patterns : List Text
  plugin_name : String

/-- Constructor `DenyListPlugin::new`: stores the configured words verbatim. -/
def DenyListPlugin.new (words : List Text) (name : String) : DenyListPlugin :=
  ⟨words, name⟩

/-- Test `self.ac.is_match(value_str)` inside the plugin: substring existence over
the unfolded patterns (no case folding anywhere). -/
def DenyListPlugin.ac_is_match (p : DenyListPlugin) (s : Text) : Bool :=
  anyPatternIn p.patterns s

/-- The violation object built by `prompt_pre_fetch` on a match. -/
def DenyListPlugin.mkViolation (p : DenyListPlugin) : PluginViolation :=
  { reason := "Denied word found in prompt"
    description := "The prompt contains words from the deny list"
    code := "DENY_LIST_VIOLATION"
    details := Option.none
    plugin_name := p.plugin_name
    mcp_error_code := Option.none }

/-- Hook `DenyListPlugin::prompt_pre_fetch`: for each value of the flat dict,
`value.extract::<&str>()?` — the `?` raises on any non-string value; on a
matching string value it returns a blocking result carrying the violation;
if the loop completes it returns a continuing result with no violation. -/
def DenyListPlugin.prompt_pre_fetch (p : DenyListPlugin) :
    List (PyValue × PyValue) → Except String PluginResult
  | [] =>
    Except.ok
      { continue_processing := true
        modified_payload := Option.none
        violation := Option.none
        metadata := Option.none }
  | kv :: kvs =>
    match kv.2 with
    | .str s =>
      if p.ac_is_match s then
        Except.ok
          { continue_processing := false
            modified_payload := Option.none
            violation := some p.mkViolation
            metadata := Option.none }
      else
        p.prompt_pre_fetch kvs
    | _ => Except.error "TypeError: value is not a string"

/-- Method `DenyListPlugin::scan` ("the old scan method for backward
compatibility"): same raising extraction, but returns `Ok(false)` on the
first match and `Ok(true)` when no value matches. -/
def DenyListPlugin.scan (p : DenyListPlugin) :
    List (PyValue × PyValue) → Except String Bool
  | [] => Except.ok true
  | kv :: kvs =>
    match kv.2 with
    | .str s =>
      if p.ac_is_match s then Except.ok false else p.scan kvs
    | _ => Except.error "TypeError: value is not a string"

/-- Method `DenyListRs::scan`, that is `self.scan_any(args.as_any()).unwrap_or(false)` —
the flat dict is handed to the recursive walk (which never errors), so
container values are recursed into rather than skipped. -/
def DenyListRs.scan (r : DenyListRs) (kvs : List (PyValue × PyValue)) : Bool :=
  scanAny (fun s => anyPatternIn r.patterns s) (PyValue.dict kvs)

/-- Shared `Matcher::scan` equals `any` of its per-value string test over the
pair list. -/
theorem matcherScan_eq_any (f : Text → Bool) (kvs : List (PyValue × PyValue)) :
    matcherScan f kvs =
      kvs.any (fun kv =>
        match kv.2 with
        | .str s => f s
        | _ => false) := by
  induction kvs with
  | nil => rfl
  | cons kv kvs ih => simp [matcherScan, ih]

/-- C6 counterexample: the claim states that every implementation of `scan`
returns true on the first matching value; `DenyListPlugin::scan` instead
returns `Ok(false)` when a value matches (and `Ok(true)` when none does). -/
theorem c6_plugin_scan_inverted :
    (DenyListPlugin.new [cp "bad"] "DenyListPlugin").scan
        [(PyValue.str (cp "user"), PyValue.str (cp "this is bad"))] =
      Except.ok false ∧
    (DenyListPlugin.new [cp "bad"] "DenyListPlugin").ac_is_match
        (cp "this is bad") = true := by
  exact ⟨by rfl, by decide⟩

/-- C6 (amended): the shared `Matcher::scan` iterates values only, applies
the matcher to each string value and returns true exactly when some string
value matches, silently skipping non-text values (it is total, so no error
is possible).  The other two implementations diverge from the claim:
`DenyListPlugin::scan` raises on a non-text value, and — restricted to
all-text mappings, where it cannot raise — returns the *negation* of the
shared scan; `DenyListRs::scan` recurses into container values, so a banned
word inside a nested list value does contribute a match there. -/
theorem c6_scan_semantics :
    (∀ (f : Text → Bool) (kvs : List (PyValue × PyValue)),
      matcherScan f kvs = true ↔
        ∃ kv ∈ kvs, ∃ s, kv.2 = PyValue.str s ∧ f s = true) ∧
    (∀ (p : DenyListPlugin) (kvs : List (PyValue × PyValue)),
      (∀ kv ∈ kvs, ∃ s, kv.2 = PyValue.str s) →
      p.scan kvs = Except.ok (!(matcherScan p.ac_is_match kvs))) ∧
    ((DenyListRs.new [cp "bad"]).scan
        [(PyValue.str (cp "k"), PyValue.list [PyValue.str (cp "bad")])] = true ∧
      matcherScan ((DenyListRs.new [cp "bad"]).scan_str)
        [(PyValue.str (cp "k"), PyValue.list [PyValue.str (cp "bad")])] = false) := by
  refine ⟨?_, ?_, by decide, by decide⟩
  · intro f kvs
    rw [matcherScan_eq_any, List.any_eq_true]
    constructor
    · rintro ⟨kv, hm, hv⟩
      refine ⟨kv, hm, ?_⟩
      cases h2 : kv.2 <;> rw [h2] at hv <;> simp_all
    · rintro ⟨kv, hm, s, hs, hf⟩
      exact ⟨kv, hm, by rw [hs]; simpa using hf⟩
  · intro p kvs hall
    induction kvs with
    | nil => rfl
    | cons kv kvs ih =>
      obtain ⟨s, hs⟩ := hall kv (List.mem_cons_self kv kvs)
      have ih2 := ih (fun kv h => hall kv (List.mem_cons_of_mem _ h))
      simp only [DenyListPlugin.scan, matcherScan, hs]
      by_cases h : p.ac_is_match s
      · simp [h]
      · simp [h, ih2]

/-- Witness for C6 (amended): the plugin scan on a concrete all-text
mapping with a matching value, with the hypothesis discharged. -/
theorem c6_scan_semantics_witness :
    (DenyListPlugin.new [cp "bad"] "P").scan
        [(PyValue.str (cp "u"), PyValue.str (cp "so bad"))] =
      Except.ok false := by
  have h := c6_scan_semantics.2.1 (DenyListPlugin.new [cp "bad"] "P")
    [(PyValue.str (cp "u"), PyValue.str (cp "so bad"))]
    (fun kv hkv => by
      rw [List.mem_singleton] at hkv
      exact ⟨cp "so bad", by rw [hkv]⟩)
  rw [h]
  rfl

/-- C7 counterexample: the claim states that `prompt_pre_fetch` silently
skips non-text values; on a mapping containing the integer value `1` it
instead raises a type error (the `?` on `value.extract::<&str>()`). -/
theorem c7_prompt_pre_fetch_raises_on_non_text :
    (DenyListPlugin.new [cp "bad"] "DenyListPlugin").prompt_pre_fetch
        [(PyValue.str (cp "id"), PyValue.int 1)] =
      Except.error "TypeError: value is not a string" := by
  rfl

/-- C7 (amended): `prompt_pre_fetch` raises a type error on the first
non-text value instead of skipping it; on a mapping whose values are all
text it returns, on the first match, `continue_processing = false` with a
violation carrying the fixed reason, machine code, human description and
the plugin's identity (`mkViolation`), and with no match it returns
`continue_processing = true` and no violation. -/
theorem c7_prompt_pre_fetch_all_text (p : DenyListPlugin)
    (kvs : List (PyValue × PyValue))
    (hall : ∀ kv ∈ kvs, ∃ s, kv.2 = PyValue.str s) :
    p.prompt_pre_fetch kvs =
      Except.ok
        { continue_processing := !(matcherScan p.ac_is_match kvs)
          modified_payload := Option.none
          violation :=
            if matcherScan p.ac_is_match kvs then some p.mkViolation
            else Option.none
          metadata := Option.none } := by
  induction kvs with
  | nil => rfl
  | cons kv kvs ih =>
    obtain ⟨s, hs⟩ := hall kv (List.mem_cons_self kv kvs)
    have ih2 := ih (fun kv h => hall kv (List.mem_cons_of_mem _ h))
    simp only [DenyListPlugin.prompt_pre_fetch, matcherScan, hs]
    by_cases h : p.ac_is_match s
    · simp [h]
    · simp [h, ih2]

/-- Witness for C7 (amended): concrete all-text mapping whose second value
contains the banned word; the hypothesis is discharged explicitly and the
result is the blocking `PluginResult` with the plugin's violation. -/
theorem c7_prompt_pre_fetch_all_text_witness :
    (DenyListPlugin.new [cp "bad"] "P").prompt_pre_fetch
        [(PyValue.str (cp "id"), PyValue.str (cp "ok")),
         (PyValue.str (cp "user"), PyValue.str (cp "so bad"))] =
      Except.ok
        { continue_processing := false
          modified_payload := Option.none
          violation := some (DenyListPlugin.new [cp "bad"] "P").mkViolation
          metadata := Option.none } := by
  have h := c7_prompt_pre_fetch_all_text (DenyListPlugin.new [cp "bad"] "P")
    [(PyValue.str (cp "id"), PyValue.str (cp "ok")),
     (PyValue.str (cp "user"), PyValue.str (cp "so bad"))]
    (fun kv hkv => by
      rcases List.mem_cons.mp hkv with h1 | h1
      · exact ⟨cp "ok", by rw [h1]⟩
      · rw [List.mem_singleton] at h1
        exact ⟨cp "so bad", by rw [h1]⟩)
  rw [h]
  rfl

/-! ## MessagePack walker (`Matcher::scan_msgpack` / `Matcher::traverse`) -/

/-- A MessagePack buffer as a list of byte values. -/
abbrev Bytes := List Nat

/-- A UTF-8 continuation byte (`0x80..=0xbf`). -/
def utf8Cont (b : Nat) : Bool :=
  decide (0x80 ≤ b) && decide (b ≤ 0xbf)

/-- Valid tail of a three-byte UTF-8 sequence with lead byte `b` (strict
validation as in Rust `str::from_utf8`: no overlong forms, no surrogates). -/
def utf8Valid3 (b b2 b3 : Nat) : Bool :=
  utf8Cont b2 && utf8Cont b3 &&
    (if b = 0xe0 then decide (0xa0 ≤ b2) else true) &&
    (if b = 0xed then decide (b2 ≤ 0x9f) else true)

/-- Valid tail of a four-byte UTF-8 sequence with lead byte `b` (strict
validation: no overlong forms, no codepoints beyond `U+10FFFF`). -/
def utf8Valid4 (b b2 b3 b4 : Nat) : Bool :=
  utf8Cont b2 && utf8Cont b3 && utf8Cont b4 &&
    (if b = 0xf0 then decide (0x90 ≤ b2) else true) &&
    (if b = 0xf4 then decide (b2 ≤ 0x8f) else true)

/-- Codepoint of a two-byte UTF-8 sequence. -/
def utf8Cp2 (b b2 : Nat) : Nat := (b - 0xc0) * 64 + (b2 - 0x80)

/-- Codepoint of a three-byte UTF-8 sequence. -/
def utf8Cp3 (b b2 b3 : Nat) : Nat :=
  (b - 0xe0) * 4096 + (b2 - 0x80) * 64 + (b3 - 0x80)

/-- Codepoint of a four-byte UTF-8 sequence. -/
def utf8Cp4 (b b2 b3 b4 : Nat) : Nat :=
  (b - 0xf0) * 262144 + (b2 - 0x80) * 4096 + (b3 - 0x80) * 64 + (b4 - 0x80)

mutual

/-- Strict UTF-8 decoding of a byte list to codepoints, as performed by
`str::from_utf8` inside `rmp::decode::read_str_from_slice`; `none` models
the `Utf8Error` failure. -/
def utf8Decode : List Nat → Option Text
  | [] => some []
  | b :: rest =>
    if b ≤ 0x7f then (utf8Decode rest).map (fun s => b :: s)
    else if 0xc2 ≤ b ∧ b ≤ 0xdf then utf8Tail2 b rest
    else if 0xe0 ≤ b ∧ b ≤ 0xef then utf8Tail3 b rest
    else if 0xf0 ≤ b ∧ b ≤ 0xf4 then utf8Tail4 b rest
    else Option.none

/-- Continuation of a two-byte sequence with lead byte `b`. -/
def utf8Tail2 (b : Nat) : List Nat → Option Text
  | b2 :: rest =>
    if utf8Cont b2 then (utf8Decode rest).map (fun s => utf8Cp2 b b2 :: s)
    else Option.none
  | [] => Option.none

/-- Continuation of a three-byte sequence with lead byte `b`. -/
def utf8Tail3 (b : Nat) : List Nat → Option Text
  | b2 :: b3 :: rest =>
    if utf8Valid3 b b2 b3 then (utf8Decode rest).map (fun s => utf8Cp3 b b2 b3 :: s)
    else Option.none
  | _ => Option.none

/-- Continuation of a four-byte sequence with lead byte `b`. -/
def utf8Tail4 (b : Nat) : List Nat → Option Text
  | b2 :: b3 :: b4 :: rest =>
    if utf8Valid4 b b2 b3 b4 then
      (utf8Decode rest).map (fun s => utf8Cp4 b b2 b3 b4 :: s)
    else Option.none
  | _ => Option.none

end

/-- Big-endian 16-bit length. -/
def be16 (h l : Nat) : Nat := h * 256 + l

/-- Big-endian 32-bit length. -/
def be32 (a b c d : Nat) : Nat := ((a * 256 + b) * 256 + c) * 256 + d

/-- String markers: fixstr (`0xa0..=0xbf`), str 8/16/32. -/
def isStrMarker (b : Nat) : Bool :=
  decide ((0xa0 ≤ b ∧ b ≤ 0xbf) ∨ b = 0xd9 ∨ b = 0xda ∨ b = 0xdb)

/-- Array markers: fixarray (`0x90..=0x9f`), array 16/32. -/
def isArrMarker (b : Nat) : Bool :=
  decide ((0x90 ≤ b ∧ b ≤ 0x9f) ∨ b = 0xdc ∨ b = 0xdd)

/-- Map markers: fixmap (`0x80..=0x8f`), map 16/32. -/
def isMapMarker (b : Nat) : Bool :=
  decide ((0x80 ≤ b ∧ b ≤ 0x8f) ∨ b = 0xde ∨ b = 0xdf)

/-- Tail step of `rmp::decode::read_str_from_slice`: with the declared
length and the bytes following the header, check the buffer holds that many
bytes and that they decode as UTF-8; returns the decoded text and the
cursor position just past the string. -/
def readStrBody (bytes : Bytes) (len posAfterHeader : Nat) : Option (Text × Nat) :=
  if len ≤ bytes.length then
    (utf8Decode (bytes.take len)).map (fun s => (s, posAfterHeader + len))
  else Option.none

/-- Reader `rmp::decode::read_str_from_slice` applied to `&full_data[pos..]`:
parse a string marker and length, then the UTF-8 payload; `none` models any
of its error returns (wrong marker, not enough data, invalid UTF-8). -/
def readStrData (data : Bytes) (pos : Nat) : Option (Text × Nat) :=
  match data.drop pos with
  | [] => Option.none
  | b :: rest =>
    if 0xa0 ≤ b ∧ b ≤ 0xbf then
      readStrBody rest (b - 0xa0) (pos + 1)
    else if b = 0xd9 then
      match rest with
      | l1 :: rest2 => readStrBody rest2 l1 (pos + 2)
      | [] => Option.none
    else if b = 0xda then
      match rest with
      | h :: l :: rest2 => readStrBody rest2 (be16 h l) (pos + 3)
      | _ => Option.none
    else if b = 0xdb then
      match rest with
      | a :: b2 :: c2 :: d2 :: rest2 => readStrBody rest2 (be32 a b2 c2 d2) (pos + 5)
      | _ => Option.none
    else Option.none

/-- Reader `rmp::decode::read_array_len` at cursor `pos`: the declared element
count and the cursor position just past the header. -/
def readArrLen (data : Bytes) (pos : Nat) : Option (Nat × Nat) :=
  match data.drop pos with
  | [] => Option.none
  | b :: rest =>
    if 0x90 ≤ b ∧ b ≤ 0x9f then some (b - 0x90, pos + 1)
    else if b = 0xdc then
      match rest with
      | h :: l :: _ => some (be16 h l, pos + 3)
      | _ => Option.none
    else if b = 0xdd then
      match rest with
      | a :: b2 :: c2 :: d2 :: _ => some (be32 a b2 c2 d2, pos + 5)
      | _ => Option.none
    else Option.none

/-- Reader `rmp::decode::read_map_len` at cursor `pos`: the declared pair count
and the cursor position just past the header. -/
def readMapLen (data : Bytes) (pos : Nat) : Option (Nat × Nat) :=
  match data.drop pos with
  | [] => Option.none
  | b :: rest =>
    if 0x80 ≤ b ∧ b ≤ 0x8f then some (b - 0x80, pos + 1)
    else if b = 0xde then
      match rest with
      | h :: l :: _ => some (be16 h l, pos + 3)
      | _ => Option.none
    else if b = 0xdf then
      match rest with
      | a :: b2 :: c2 :: d2 :: _ => some (be32 a b2 c2 d2, pos + 5)
      | _ => Option.none
    else Option.none

mutual

/-- Walker `Matcher::traverse`: walk the buffer from cursor `pos`; returns the
violation flag and the final cursor position.  Mirrors the Rust control
flow: out-of-bounds cursor returns false; a string token is decoded in
place, tested only when `check` is set, and skipped; array and map headers
re-read the length and loop over the declared count; any other marker only
consumes its own byte.  On a length-read failure the cursor is left at the
end of the buffer (the failed exact read consumes what remains); on a
string-read failure only the marker byte is consumed.  The `fuel` argument
bounds the recursion depth; the nesting depth of any traversal is bounded
by the buffer length, so `scanMsgpack`'s fuel is never exhausted. -/
def traverse (f : Text → Bool) : Nat → Bytes → Nat → Bool → Bool × Nat
  | 0, _, pos, _ => (false, pos)
  | Nat.succ fuel, data, pos, check =>
    match data.drop pos with
    | [] => (false, pos)
    | b :: _ =>
      if isStrMarker b then
        match readStrData data pos with
        | some (s, newPos) =>
          if check && f s then (true, pos + 1) else (false, newPos)
        | Option.none => (false, pos + 1)
      else if isArrMarker b then
        match readArrLen data pos with
        | some (len, hpos) => traverseItems f fuel data hpos check len
        | Option.none => (false, data.length)
      else if isMapMarker b then
        match readMapLen data pos with
        | some (len, hpos) => traverseEntries f fuel data hpos check len
        | Option.none => (false, data.length)
      else (false, pos + 1)

/-- The array loop of `Matcher::traverse`: recurse `len` times, each
recursion inheriting the current match-enabled flag, short-circuiting on
the first violation. -/
def traverseItems (f : Text → Bool) : Nat → Bytes → Nat → Bool → Nat → Bool × Nat
  | _, _, pos, _, 0 => (false, pos)
  | fuel, data, pos, check, Nat.succ n =>
    match traverse f fuel data pos check with
    | (true, p) => (true, p)
    | (false, p) => traverseItems f fuel data p check n

/-- The map loop of `Matcher::traverse`: for each pair, recurse into the
key with matching disabled, then into the value with the inherited flag,
short-circuiting on the first violation. -/
def traverseEntries (f : Text → Bool) : Nat → Bytes → Nat → Bool → Nat → Bool × Nat
  | _, _, pos, _, 0 => (false, pos)
  | fuel, data, pos, check, Nat.succ n =>
    match traverse f fuel data pos false with
    | (true, p) => (true, p)
    | (false, p1) =>
      match traverse f fuel data p1 check with
      | (true, p) => (true, p)
      | (false, p2) => traverseEntries f fuel data p2 check n

end

/-- Entry point `Matcher::scan_msgpack`: start the traversal at cursor 0 with matching
enabled.  The fuel `data.length + 1` dominates the recursion depth, which
grows only when a (one-byte-or-more) container header has been consumed. -/
def scanMsgpack (f : Text → Bool) (data : Bytes) : Bool :=
  (traverse f (data.length + 1) data 0 true).1

/-! ## MessagePack documents and their encodings

To reason about whole documents rather than single buffers, a small value
type is encoded with the standard MessagePack rules.  The catch-all branch
of `Matcher::traverse` advances the cursor only past the marker byte, never
past a scalar's payload, so on documents containing a multi-byte scalar
encoding the walker desynchronizes from the document structure.  `muint8`
(marker `0xcc` plus one payload byte) represents that family here; the
other multi-byte scalars (uint 16/32/64, int 8-64, float 32/64, bin, ext)
carry fixed or length-prefixed payloads the code skips no better.  The
walker is proved to compute the reference matching semantics on the
synchronized fragment (`syncWf`, no multi-byte scalars), and is evaluated
on well-formed documents outside it to exhibit the desynchronization. -/

/-- MessagePack values used to build buffers: ASCII fixstr strings,
positive fixints, uint 8 scalars (representative of the multi-byte scalar
family), booleans, nil, fixarray and fixmap containers. -/
inductive Mv where
  | mstr (s : Text)
  | mint (n : Nat)
  | muint8 (n : Nat)
  | mbool (b : Bool)
  | mnil
  | marr (xs : List Mv)
  | mmap (kvs : List (Mv × Mv))
deriving Repr

mutual

/-- Standard MessagePack encoding of an `Mv` (fixstr `0xa0+len`, positive
fixint, uint 8 as `0xcc` plus the payload byte, `0xc2`/`0xc3` booleans,
`0xc0` nil, fixarray `0x90+len`, fixmap `0x80+len`). -/
def encMv : Mv → Bytes
  | .mstr s => (0xa0 + s.length) :: s
  | .mint n => [n]
  | .muint8 n => [0xcc, n % 256]
  | .mbool b => [if b then 0xc3 else 0xc2]
  | .mnil => [0xc0]
  | .marr xs => (0x90 + xs.length) :: encMvList xs
  | .mmap kvs => (0x80 + kvs.length) :: encMvPairs kvs

/-- Concatenated encodings of array elements. -/
def encMvList : List Mv → Bytes
  | [] => []
  | x :: xs => encMv x ++ encMvList xs

/-- Concatenated encodings of map pairs (key then value). -/
def encMvPairs : List (Mv × Mv) → Bytes
  | [] => []
  | kv :: kvs => encMv kv.1 ++ encMv kv.2 ++ encMvPairs kvs

end

mutual

/-- Membership in the synchronized fragment: strings are ASCII and fit a
fixstr, integers fit a (single-byte) positive fixint, containers fit the
fix headers, and — decisively — no multi-byte scalar occurs anywhere.
This is strictly narrower than well-formedness (`wfMv`): a well-formed
`muint8` is excluded because the walker's catch-all branch advances only
one byte on it and desynchronizes (see the C3/C9 bug theorems). -/
def syncWf : Mv → Bool
  | .mstr s => decide (s.length ≤ 31) && s.all (fun c => decide (c ≤ 0x7f))
  | .mint n => decide (n ≤ 0x7f)
  | .muint8 _ => false
  | .mbool _ => true
  | .mnil => true
  | .marr xs => decide (xs.length ≤ 15) && syncWfList xs
  | .mmap kvs => decide (kvs.length ≤ 15) && syncWfPairs kvs

/-- Synchronized fragment, every array element. -/
def syncWfList : List Mv → Bool
  | [] => true
  | x :: xs => syncWf x && syncWfList xs

/-- Synchronized fragment, every key and value of a map. -/
def syncWfPairs : List (Mv × Mv) → Bool
  | [] => true
  | kv :: kvs => syncWf kv.1 && syncWf kv.2 && syncWfPairs kvs

end

mutual

/-- Well-formedness of a document within the modelled fragment: strings are
ASCII and fit a fixstr, fixints are single-byte, uint 8 payloads fit a
byte, containers fit the fix headers.  Unlike `syncWf` this accepts the
two-byte uint 8 encoding, which is perfectly valid MessagePack but on which
the walker desynchronizes. -/
def wfMv : Mv → Bool
  | .mstr s => decide (s.length ≤ 31) && s.all (fun c => decide (c ≤ 0x7f))
  | .mint n => decide (n ≤ 0x7f)
  | .muint8 n => decide (n ≤ 0xff)
  | .mbool _ => true
  | .mnil => true
  | .marr xs => decide (xs.length ≤ 15) && wfMvList xs
  | .mmap kvs => decide (kvs.length ≤ 15) && wfMvPairs kvs

/-- Well-formedness of every array element. -/
def wfMvList : List Mv → Bool
  | [] => true
  | x :: xs => wfMv x && wfMvList xs

/-- Well-formedness of every key and value of a map. -/
def wfMvPairs : List (Mv × Mv) → Bool
  | [] => true
  | kv :: kvs => wfMv kv.1 && wfMv kv.2 && wfMvPairs kvs

end

mutual

/-- Reference matching semantics of the walker with matching enabled: a
string matches when the matcher flags it; an array matches when some element
does; a map matches when some *value* does (keys are traversed with matching
disabled and can never contribute); other scalars never match. -/
def mvMatches (f : Text → Bool) : Mv → Bool
  | .mstr s => f s
  | .marr xs => mvMatchesList f xs
  | .mmap kvs => mvMatchesPairs f kvs
  | _ => false

/-- Some array element matches. -/
def mvMatchesList (f : Text → Bool) : List Mv → Bool
  | [] => false
  | x :: xs => mvMatches f x || mvMatchesList f xs

/-- Some map value matches (keys never contribute). -/
def mvMatchesPairs (f : Text → Bool) : List (Mv × Mv) → Bool
  | [] => false
  | kv :: kvs => mvMatches f kv.2 || mvMatchesPairs f kvs

end

mutual

/-- Number of nodes of a document; bounds the recursion depth of the walker
over its encoding. -/
def msgCount : Mv → Nat
  | .mstr _ => 1
  | .mint _ => 1
  | .muint8 _ => 1
  | .mbool _ => 1
  | .mnil => 1
  | .marr xs => 1 + msgCountList xs
  | .mmap kvs => 1 + msgCountPairs kvs

/-- Total node count of array elements. -/
def msgCountList : List Mv → Nat
  | [] => 0
  | x :: xs => msgCount x + msgCountList xs

/-- Total node count of map pairs. -/
def msgCountPairs : List (Mv × Mv) → Nat
  | [] => 0
  | kv :: kvs => msgCount kv.1 + msgCount kv.2 + msgCountPairs kvs

end

theorem msgCount_pos : ∀ v : Mv, 1 ≤ msgCount v := by
  intro v
  cases v <;> simp only [msgCount] <;> omega

theorem msgCount_le_of_mem {x : Mv} {xs : List Mv} (h : x ∈ xs) :
    msgCount x ≤ msgCountList xs := by
  induction xs with
  | nil => cases h
  | cons y ys ih =>
    rcases List.mem_cons.mp h with rfl | h2
    · simp [msgCountList]
    · have := ih h2
      simp [msgCountList]
      omega

theorem msgCount_fst_le_of_mem {kv : Mv × Mv} {kvs : List (Mv × Mv)}
    (h : kv ∈ kvs) : msgCount kv.1 ≤ msgCountPairs kvs := by
  induction kvs with
  | nil => cases h
  | cons y ys ih =>
    rcases List.mem_cons.mp h with rfl | h2
    · simp [msgCountPairs]
      omega
    · have := ih h2
      simp [msgCountPairs]
      omega

theorem msgCount_snd_le_of_mem {kv : Mv × Mv} {kvs : List (Mv × Mv)}
    (h : kv ∈ kvs) : msgCount kv.2 ≤ msgCountPairs kvs := by
  induction kvs with
  | nil => cases h
  | cons y ys ih =>
    rcases List.mem_cons.mp h with rfl | h2
    · simp [msgCountPairs]
      omega
    · have := ih h2
      simp [msgCountPairs]
      omega

/-- Strict UTF-8 decoding is the identity on ASCII byte lists. -/
theorem utf8Decode_ascii : ∀ bs : List Nat, (∀ b ∈ bs, b ≤ 0x7f) →
    utf8Decode bs = some bs := by
  intro bs h
  induction bs with
  | nil => rfl
  | cons b rest ih =>
    have hb : b ≤ 0x7f := h b (List.mem_cons_self b rest)
    have ih2 := ih (fun x hx => h x (List.mem_cons_of_mem _ hx))
    simp only [utf8Decode]
    rw [if_pos hb, ih2]
    rfl

/-- Dropping the prefix length exposes the head byte of the encoded value. -/
theorem drop_append_cons (pre : Bytes) (b : Nat) (tail post : Bytes) :
    (pre ++ (b :: tail) ++ post).drop pre.length = b :: (tail ++ post) := by
  rw [List.append_assoc, List.drop_left]
  rfl

/-- With the match flag effectively off — either `check` is false or the
matcher flags nothing — no traversal ever reports a violation, whatever the
buffer (well-formed or not).  The only `true` in `Matcher::traverse` is
guarded by `check_strings && is_match`, and recursion passes the flag down
unchanged (or disabled, into map keys). -/
theorem traverse_never_matches (f : Text → Bool) :
    ∀ fuel check, (∀ s, (check && f s) = false) →
      (∀ data pos, (traverse f fuel data pos check).1 = false) ∧
      (∀ data pos n, (traverseItems f fuel data pos check n).1 = false) ∧
      (∀ data pos n, (traverseEntries f fuel data pos check n).1 = false) := by
  intro fuel
  induction fuel with
  | zero =>
    intro check hc
    refine ⟨fun data pos => by simp [traverse], ?_, ?_⟩
    · intro data pos n
      induction n generalizing pos with
      | zero => simp [traverseItems]
      | succ n ihn =>
        simp only [traverseItems, traverse]
        exact ihn pos
    · intro data pos n
      induction n generalizing pos with
      | zero => simp [traverseEntries]
      | succ n ihn =>
        simp only [traverseEntries, traverse]
        exact ihn pos
  | succ fuel ih =>
    intro check hc
    have hT : ∀ check2, (∀ s, (check2 && f s) = false) →
        ∀ data pos, (traverse f (fuel + 1) data pos check2).1 = false := by
      intro check2 hc2 data pos
      obtain ⟨ihT, ihI, ihE⟩ := ih check2 hc2
      simp only [traverse]
      rcases hd : data.drop pos with _ | ⟨b, tl⟩
      · rfl
      · simp only []
        by_cases hs : isStrMarker b = true
        · simp only [hs, if_true]
          rcases hr : readStrData data pos with _ | ⟨str1, np⟩
          · rfl
          · simp [hc2 str1]
        · simp only [hs, if_false, Bool.false_eq_true]
          by_cases ha : isArrMarker b = true
          · simp only [ha, if_true]
            rcases hr : readArrLen data pos with _ | ⟨len, hpos⟩
            · rfl
            · exact ihI data hpos len
          · simp only [ha, if_false, Bool.false_eq_true]
            by_cases hm : isMapMarker b = true
            · simp only [hm, if_true]
              rcases hr : readMapLen data pos with _ | ⟨len, hpos⟩
              · rfl
              · exact ihE data hpos len
            · simp only [hm, if_false, Bool.false_eq_true]
    have hcf : ∀ s, (false && f s) = false := fun s => rfl
    have hI : ∀ data pos n, (traverseItems f (fuel + 1) data pos check n).1 = false := by
      intro data pos n
      induction n generalizing pos with
      | zero => simp [traverseItems]
      | succ n ihn =>
        simp only [traverseItems]
        split
        · rename_i p heq
          have h2 := hT check hc data pos
          rw [heq] at h2
          exact h2
        · rename_i p heq
          exact ihn p
    have hE : ∀ data pos n, (traverseEntries f (fuel + 1) data pos check n).1 = false := by
      intro data pos n
      induction n generalizing pos with
      | zero => simp [traverseEntries]
      | succ n ihn =>
        simp only [traverseEntries]
        split
        · rename_i p heq
          have h2 := hT false hcf data pos
          rw [heq] at h2
          exact h2
        · rename_i p1 heq1
          split
          · rename_i p heq
            have h2 := hT check hc data p1
            rw [heq] at h2
            exact h2
          · rename_i p2 heq2
            exact ihn p2
    exact ⟨hT check hc, hI, hE⟩

theorem encMvList_cons (x : Mv) (xs : List Mv) :
    encMvList (x :: xs) = encMv x ++ encMvList xs := by
  rfl

theorem encMvPairs_cons (kv : Mv × Mv) (kvs : List (Mv × Mv)) :
    encMvPairs (kv :: kvs) = encMv kv.1 ++ (encMv kv.2 ++ encMvPairs kvs) := by
  simp [encMvPairs]

mutual

theorem msgCount_le_encMv_length : ∀ v : Mv, msgCount v ≤ (encMv v).length
  | .mstr s => by simp [msgCount, encMv]
  | .mint n => by simp [msgCount, encMv]
  | .muint8 n => by simp [msgCount, encMv]
  | .mbool b => by simp [msgCount, encMv]
  | .mnil => by simp [msgCount, encMv]
  | .marr xs => by
      have h := msgCountList_le_encMvList_length xs
      simp only [msgCount, encMv, List.length_cons]
      omega
  | .mmap kvs => by
      have h := msgCountPairs_le_encMvPairs_length kvs
      simp only [msgCount, encMv, List.length_cons]
      omega

theorem msgCountList_le_encMvList_length :
    ∀ xs : List Mv, msgCountList xs ≤ (encMvList xs).length
  | [] => by simp [msgCountList, encMvList]
  | x :: xs => by
      have h1 := msgCount_le_encMv_length x
      have h2 := msgCountList_le_encMvList_length xs
      simp only [msgCountList, encMvList, List.length_append]
      omega

theorem msgCountPairs_le_encMvPairs_length :
    ∀ kvs : List (Mv × Mv), msgCountPairs kvs ≤ (encMvPairs kvs).length
  | [] => by simp [msgCountPairs, encMvPairs]
  | kv :: kvs => by
      have h1 := msgCount_le_encMv_length kv.1
      have h2 := msgCount_le_encMv_length kv.2
      have h3 := msgCountPairs_le_encMvPairs_length kvs
      simp only [msgCountPairs, encMvPairs, List.length_append]
      omega

end

/-- Advancing the cursor past a recognised chunk exposes the remainder. -/
theorem drop_of_drop_append {data : Bytes} {pos : Nat} {a rest : Bytes}
    (h : data.drop pos = a ++ rest) :
    data.drop (pos + a.length) = rest := by
  rw [← List.drop_drop, h, List.drop_left]

/-- The array loop of the walker, run over the concatenated encodings of
`xs` (with arbitrary following bytes), computes the disjunction of the
element matches and otherwise leaves the cursor just past the elements.
`H` is the induction hypothesis for single values at the same fuel. -/
theorem traverseItems_encList (f : Text → Bool) (fuel : Nat)
    (H : ∀ v, msgCount v ≤ fuel → syncWf v = true →
      ∀ (check : Bool) (data : Bytes) (pos : Nat) (rest : Bytes),
        data.drop pos = encMv v ++ rest →
        (traverse f fuel data pos check).1 = (check && mvMatches f v) ∧
        ((check && mvMatches f v) = false →
          (traverse f fuel data pos check).2 = pos + (encMv v).length)) :
    ∀ xs : List Mv, (∀ x ∈ xs, msgCount x ≤ fuel) → syncWfList xs = true →
      ∀ (check : Bool) (data : Bytes) (pos : Nat) (rest : Bytes),
        data.drop pos = encMvList xs ++ rest →
        (traverseItems f fuel data pos check xs.length).1
            = (check && mvMatchesList f xs) ∧
        ((check && mvMatchesList f xs) = false →
          (traverseItems f fuel data pos check xs.length).2
              = pos + (encMvList xs).length) := by
  intro xs
  induction xs with
  | nil =>
    intro _ _ check data pos rest _
    simp [traverseItems, encMvList, mvMatchesList]
  | cons x xs ihx =>
    intro hcount hwf check data pos rest hdrop
    have hwx : syncWf x = true := by
      simp [syncWfList, Bool.and_eq_true] at hwf
      exact hwf.1
    have hwxs : syncWfList xs = true := by
      simp [syncWfList, Bool.and_eq_true] at hwf
      exact hwf.2
    rw [encMvList_cons, List.append_assoc] at hdrop
    obtain ⟨h1, h2⟩ := H x (hcount x (List.mem_cons_self x xs)) hwx check data pos
      (encMvList xs ++ rest) hdrop
    simp only [List.length_cons, traverseItems]
    split
    · rename_i p heq
      rw [heq] at h1
      simp only [] at h1
      constructor
      · simp [mvMatchesList, ← h1, Bool.and_or_distrib_left]
      · intro hfalse
        rw [show mvMatchesList f (x :: xs) = (mvMatches f x || mvMatchesList f xs)
            from rfl, Bool.and_or_distrib_left, ← h1] at hfalse
        simp at hfalse
    · rename_i p heq
      have hmx : (check && mvMatches f x) = false := by
        rw [heq] at h1
        exact h1.symm
      have hp : p = pos + (encMv x).length := by
        have := h2 hmx
        rw [heq] at this
        exact this
      have hdrop2 : data.drop p = encMvList xs ++ rest := by
        rw [hp]
        exact drop_of_drop_append hdrop
      obtain ⟨ih1, ih2⟩ := ihx (fun y hy => hcount y (List.mem_cons_of_mem _ hy))
        hwxs check data p rest hdrop2
      constructor
      · rw [ih1]
        simp [mvMatchesList, Bool.and_or_distrib_left, hmx]
      · intro hfalse
        rw [show mvMatchesList f (x :: xs) = (mvMatches f x || mvMatchesList f xs)
            from rfl, Bool.and_or_distrib_left, hmx] at hfalse
        simp only [Bool.false_or] at hfalse
        rw [ih2 hfalse, hp]
        simp [encMvList_cons, List.length_append]
        omega


/-- The map loop of the walker, run over the concatenated encodings of the
pairs of `kvs`: each key is traversed with matching disabled (contributing
nothing), each value with the inherited flag; the result is the disjunction
of the value matches. -/
theorem traverseEntries_encPairs (f : Text → Bool) (fuel : Nat)
    (H : ∀ v, msgCount v ≤ fuel → syncWf v = true →
      ∀ (check : Bool) (data : Bytes) (pos : Nat) (rest : Bytes),
        data.drop pos = encMv v ++ rest →
        (traverse f fuel data pos check).1 = (check && mvMatches f v) ∧
        ((check && mvMatches f v) = false →
          (traverse f fuel data pos check).2 = pos + (encMv v).length)) :
    ∀ kvs : List (Mv × Mv),
      (∀ kv ∈ kvs, msgCount kv.1 ≤ fuel ∧ msgCount kv.2 ≤ fuel) →
      syncWfPairs kvs = true →
      ∀ (check : Bool) (data : Bytes) (pos : Nat) (rest : Bytes),
        data.drop pos = encMvPairs kvs ++ rest →
        (traverseEntries f fuel data pos check kvs.length).1
            = (check && mvMatchesPairs f kvs) ∧
        ((check && mvMatchesPairs f kvs) = false →
          (traverseEntries f fuel data pos check kvs.length).2
              = pos + (encMvPairs kvs).length) := by
  intro kvs
  induction kvs with
  | nil =>
    intro _ _ check data pos rest _
    simp [traverseEntries, encMvPairs, mvMatchesPairs]
  | cons kv kvs ihkvs =>
    intro hcount hwf check data pos rest hdrop
    have hwk : syncWf kv.1 = true := by
      simp [syncWfPairs, Bool.and_eq_true] at hwf
      exact hwf.1.1
    have hwv : syncWf kv.2 = true := by
      simp [syncWfPairs, Bool.and_eq_true] at hwf
      exact hwf.1.2
    have hwkvs : syncWfPairs kvs = true := by
      simp [syncWfPairs, Bool.and_eq_true] at hwf
      exact hwf.2
    rw [encMvPairs_cons, List.append_assoc, List.append_assoc] at hdrop
    obtain ⟨hk1, hk2⟩ := H kv.1 (hcount kv (List.mem_cons_self kv kvs)).1 hwk false
      data pos (encMv kv.2 ++ (encMvPairs kvs ++ rest)) hdrop
    simp only [Bool.false_and] at hk1 hk2
    simp only [List.length_cons, traverseEntries]
    split
    · rename_i p heq
      rw [heq] at hk1
      simp at hk1
    · rename_i p1 heq1
      have hp1 : p1 = pos + (encMv kv.1).length := by
        have := hk2 trivial
        rw [heq1] at this
        exact this
      have hdropv : data.drop p1 = encMv kv.2 ++ (encMvPairs kvs ++ rest) := by
        rw [hp1]
        exact drop_of_drop_append hdrop
      obtain ⟨hv1, hv2⟩ := H kv.2 (hcount kv (List.mem_cons_self kv kvs)).2 hwv check
        data p1 (encMvPairs kvs ++ rest) hdropv
      split
      · rename_i p heq2
        rw [heq2] at hv1
        simp only [] at hv1
        constructor
        · simp [mvMatchesPairs, ← hv1, Bool.and_or_distrib_left]
        · intro hfalse
          rw [show mvMatchesPairs f (kv :: kvs) = (mvMatches f kv.2 || mvMatchesPairs f kvs)
              from rfl, Bool.and_or_distrib_left, ← hv1] at hfalse
          simp at hfalse
      · rename_i p2 heq2
        have hmv : (check && mvMatches f kv.2) = false := by
          rw [heq2] at hv1
          exact hv1.symm
        have hp2 : p2 = p1 + (encMv kv.2).length := by
          have := hv2 hmv
          rw [heq2] at this
          exact this
        have hdropr : data.drop p2 = encMvPairs kvs ++ rest := by
          rw [hp2]
          exact drop_of_drop_append hdropv
        obtain ⟨ih1, ih2⟩ := ihkvs (fun y hy => hcount y (List.mem_cons_of_mem _ hy))
          hwkvs check data p2 rest hdropr
        constructor
        · rw [ih1]
          simp [mvMatchesPairs, Bool.and_or_distrib_left, hmv]
        · intro hfalse
          rw [show mvMatchesPairs f (kv :: kvs) = (mvMatches f kv.2 || mvMatchesPairs f kvs)
              from rfl, Bool.and_or_distrib_left, hmv] at hfalse
          simp only [Bool.false_or] at hfalse
          rw [ih2 hfalse, hp2, hp1]
          simp [encMvPairs_cons, List.length_append]
          omega

/-- Soundness and completeness of the walker on the synchronized fragment:
with enough fuel, traversing the encoding of a `syncWf` document (followed
by arbitrary bytes) reports a violation exactly when the reference
semantics `mvMatches` does under the current flag, and otherwise leaves the
cursor exactly past the encoding.  Outside the fragment — already for a
single uint 8 scalar — the cursor property fails and with it the rest (see
the C3/C9 bug theorems). -/
theorem traverse_encMv (f : Text → Bool) :
    ∀ fuel v, msgCount v ≤ fuel → syncWf v = true →
      ∀ (check : Bool) (data : Bytes) (pos : Nat) (rest : Bytes),
        data.drop pos = encMv v ++ rest →
        (traverse f fuel data pos check).1 = (check && mvMatches f v) ∧
        ((check && mvMatches f v) = false →
          (traverse f fuel data pos check).2 = pos + (encMv v).length) := by
  intro fuel
  induction fuel with
  | zero =>
    intro v hc
    exact absurd hc (by have := msgCount_pos v; omega)
  | succ fuel ih =>
    intro v hc hwf check data pos rest hdrop
    cases v with
    | mstr s =>
      have hlen : s.length ≤ 31 := by
        simp only [syncWf, Bool.and_eq_true, decide_eq_true_eq] at hwf
        exact hwf.1
      have hascii : ∀ c ∈ s, c ≤ 0x7f := by
        simp only [syncWf, Bool.and_eq_true, List.all_eq_true, decide_eq_true_eq] at hwf
        exact hwf.2
      simp only [encMv, List.cons_append] at hdrop
      have hsm : isStrMarker (0xa0 + s.length) = true := by
        simp only [isStrMarker, decide_eq_true_eq]
        omega
      have hread : readStrData data pos = some (s, pos + 1 + s.length) := by
        have h1 : (0xa0 : Nat) ≤ 0xa0 + s.length := by omega
        have h2 : 0xa0 + s.length ≤ 0xbf := by omega
        have h3 : s.length ≤ (s ++ rest).length := by simp
        simp [readStrData, hdrop, h1, h2, readStrBody, h3, Nat.add_sub_cancel_left,
          List.take_left, utf8Decode_ascii s hascii]
      simp only [traverse, hdrop, hsm, if_true, hread, mvMatches, encMv]
      constructor
      · by_cases hm : (check && f s) = true
        · simp [hm]
        · simp only [Bool.not_eq_true] at hm
          simp [hm]
      · intro hfalse
        simp only [hfalse, Bool.false_eq_true, if_false, List.length_cons]
        omega
    | mint n =>
      have hn : n ≤ 0x7f := by
        simp only [syncWf, decide_eq_true_eq] at hwf
        exact hwf
      simp only [encMv, List.singleton_append] at hdrop
      have hs : isStrMarker n = false := by
        simp only [isStrMarker, decide_eq_false_iff_not]
        omega
      have ha : isArrMarker n = false := by
        simp only [isArrMarker, decide_eq_false_iff_not]
        omega
      have hm : isMapMarker n = false := by
        simp only [isMapMarker, decide_eq_false_iff_not]
        omega
      simp [traverse, hdrop, hs, ha, hm, mvMatches, encMv]
    | muint8 n =>
      simp [syncWf] at hwf
    | mbool b =>
      cases b with
      | false =>
        simp only [encMv, if_false, List.singleton_append, Bool.false_eq_true] at hdrop
        simp [traverse, hdrop, mvMatches, encMv,
          show isStrMarker 0xc2 = false from by decide,
          show isArrMarker 0xc2 = false from by decide,
          show isMapMarker 0xc2 = false from by decide]
      | true =>
        simp only [encMv, if_true, List.singleton_append] at hdrop
        simp [traverse, hdrop, mvMatches, encMv,
          show isStrMarker 0xc3 = false from by decide,
          show isArrMarker 0xc3 = false from by decide,
          show isMapMarker 0xc3 = false from by decide]
    | mnil =>
      simp only [encMv, List.singleton_append] at hdrop
      simp [traverse, hdrop, mvMatches, encMv,
        show isStrMarker 0xc0 = false from by decide,
        show isArrMarker 0xc0 = false from by decide,
        show isMapMarker 0xc0 = false from by decide]
    | marr xs =>
      have hxslen : xs.length ≤ 15 := by
        simp only [syncWf, Bool.and_eq_true, decide_eq_true_eq] at hwf
        exact hwf.1
      have hwfl : syncWfList xs = true := by
        simp only [syncWf, Bool.and_eq_true] at hwf
        exact hwf.2
      simp only [encMv, List.cons_append] at hdrop
      have hs : isStrMarker (0x90 + xs.length) = false := by
        simp only [isStrMarker, decide_eq_false_iff_not]
        omega
      have ha : isArrMarker (0x90 + xs.length) = true := by
        simp only [isArrMarker, decide_eq_true_eq]
        omega
      have hreadlen : readArrLen data pos = some (xs.length, pos + 1) := by
        have h1 : (0x90 : Nat) ≤ 0x90 + xs.length := by omega
        have h2 : 0x90 + xs.length ≤ 0x9f := by omega
        simp [readArrLen, hdrop, h1, h2, Nat.add_sub_cancel_left]
      have hdrop2 : data.drop (pos + 1) = encMvList xs ++ rest := by
        have hdrop1 : data.drop pos = [0x90 + xs.length] ++ (encMvList xs ++ rest) := by
          simpa using hdrop
        simpa using drop_of_drop_append hdrop1
      have hcxs : ∀ x ∈ xs, msgCount x ≤ fuel := by
        intro x hx
        have h := msgCount_le_of_mem hx
        simp only [msgCount] at hc
        omega
      obtain ⟨l1, l2⟩ := traverseItems_encList f fuel ih xs hcxs hwfl check data
        (pos + 1) rest hdrop2
      simp only [traverse, hdrop, hs, Bool.false_eq_true, if_false, ha, if_true,
        hreadlen, mvMatches, encMv]
      constructor
      · exact l1
      · intro hfalse
        rw [l2 hfalse]
        simp only [List.length_cons]
        omega
    | mmap kvs =>
      have hkvslen : kvs.length ≤ 15 := by
        simp only [syncWf, Bool.and_eq_true, decide_eq_true_eq] at hwf
        exact hwf.1
      have hwfp : syncWfPairs kvs = true := by
        simp only [syncWf, Bool.and_eq_true] at hwf
        exact hwf.2
      simp only [encMv, List.cons_append] at hdrop
      have hs : isStrMarker (0x80 + kvs.length) = false := by
        simp only [isStrMarker, decide_eq_false_iff_not]
        omega
      have ha : isArrMarker (0x80 + kvs.length) = false := by
        simp only [isArrMarker, decide_eq_false_iff_not]
        omega
      have hm : isMapMarker (0x80 + kvs.length) = true := by
        simp only [isMapMarker, decide_eq_true_eq]
        omega
      have hreadlen : readMapLen data pos = some (kvs.length, pos + 1) := by
        have h1 : (0x80 : Nat) ≤ 0x80 + kvs.length := by omega
        have h2 : 0x80 + kvs.length ≤ 0x8f := by omega
        simp [readMapLen, hdrop, h1, h2, Nat.add_sub_cancel_left]
      have hdrop2 : data.drop (pos + 1) = encMvPairs kvs ++ rest := by
        have hdrop1 : data.drop pos = [0x80 + kvs.length] ++ (encMvPairs kvs ++ rest) := by
          simpa using hdrop
        simpa using drop_of_drop_append hdrop1
      have hckvs : ∀ kv ∈ kvs, msgCount kv.1 ≤ fuel ∧ msgCount kv.2 ≤ fuel := by
        intro kv hkv
        have h1 := msgCount_fst_le_of_mem hkv
        have h2 := msgCount_snd_le_of_mem hkv
        simp only [msgCount] at hc
        omega
      obtain ⟨l1, l2⟩ := traverseEntries_encPairs f fuel ih kvs hckvs hwfp check data
        (pos + 1) rest hdrop2
      simp only [traverse, hdrop, hs, Bool.false_eq_true, if_false, ha, hm, if_true,
        hreadlen, mvMatches, encMv]
      constructor
      · exact l1
      · intro hfalse
        rw [l2 hfalse]
        simp only [List.length_cons]
        omega

/-- The reference semantics as a `List.any` over array elements. -/
theorem mvMatchesList_eq_any (f : Text → Bool) (xs : List Mv) :
    mvMatchesList f xs = xs.any (mvMatches f) := by
  induction xs with
  | nil => rfl
  | cons x xs ih => simp [mvMatchesList, ih]

/-- The reference semantics as a `List.any` over map values only. -/
theorem mvMatchesPairs_eq_any (f : Text → Bool) (kvs : List (Mv × Mv)) :
    mvMatchesPairs f kvs = kvs.any (fun kv => mvMatches f kv.2) := by
  induction kvs with
  | nil => rfl
  | cons kv kvs ih => simp [mvMatchesPairs, ih]

/-- Theorem: `scan_msgpack` computes the reference semantics on every
document of the synchronized fragment: the initial call has matching
enabled and the default fuel dominates the recursion depth. -/
theorem scanMsgpack_encMv (f : Text → Bool) (v : Mv) (hwf : syncWf v = true) :
    scanMsgpack f (encMv v) = mvMatches f v := by
  have hfuel : msgCount v ≤ (encMv v).length + 1 :=
    le_trans (msgCount_le_encMv_length v) (by omega)
  have h := (traverse_encMv f ((encMv v).length + 1) v hfuel hwf true (encMv v) 0 []
    (by simp)).1
  simpa [scanMsgpack] using h

/-- C4 counterexample: the claim states that structurally malformed input —
in particular an array header declaring 2 elements with only 1 present —
yields false.  This buffer is exactly that shape (fixarray(2) with a single
fixstr element), yet `scan_msgpack` returns true because the readable
element contains the banned word: malformed input does not always yield
false. -/
theorem c4_truncated_buffer_matches :
    scanMsgpack (occursIn (cp "bad")) [0x92, 0xa3, 0x62, 0x61, 0x64] = true := by
  have hocc : occursIn (cp "bad") [98, 97, 100] = true := by decide
  simp [scanMsgpack, traverse, traverseItems, traverseEntries, readStrData, readStrBody,
    readArrLen, readMapLen, utf8Decode, utf8Cont, isStrMarker, isArrMarker, isMapMarker,
    be16, be32, hocc]

/-- C4 (amended): `scan_msgpack` is a total boolean function — it never
raises — and malformed structure never itself produces a match: with a
matcher that flags nothing, every buffer (malformed included) yields false,
and the spec's malformed examples — the empty buffer, an invalid leading
marker (`0xc1`), and an array header declaring 2 elements with only 1
clean element — yield false for every matcher.  However, a truncated buffer
whose readable part contains a banned word yields true (see the
counterexample), so "malformed input yields false" holds only in the sense
"malformed input is treated as no-match rather than as an error". -/
theorem c4_malformed_is_no_match_not_error :
    (∀ data : Bytes, scanMsgpack (fun _ => false) data = false) ∧
    (∀ f : Text → Bool,
      scanMsgpack f [] = false ∧
      scanMsgpack f [0xc1] = false ∧
      scanMsgpack f [0x92, 0x01] = false) := by
  constructor
  · intro data
    have h := (traverse_never_matches (fun _ => false) (data.length + 1) true
      (by simp)).1 data 0
    simpa [scanMsgpack] using h
  · intro f
    refine ⟨?_, ?_, ?_⟩
    · simp [scanMsgpack, traverse]
    · simp [scanMsgpack, traverse, isStrMarker, isArrMarker, isMapMarker]
    · simp [scanMsgpack, traverse, traverseItems, traverseEntries, readStrData,
        readStrBody, readArrLen, readMapLen, isStrMarker, isArrMarker, isMapMarker,
        be16, be32]

/-- C3: the claim states that for every well-formed MessagePack map a
banned word occurring only as a map key yields false while the same word in
a map value yields true.  The code is wrong: the catch-all branch of
`Matcher::traverse` advances the cursor only past the marker byte, never
past a scalar's payload (the spec requires advancing "past the encoded
value"), so a two-byte uint 8 value desynchronizes the walk.  On the
well-formed map `{"a": 200, "user": "bad"}` the banned value is never
decoded and the scan returns false, and on `{"a": 200, "bad": "ok"}` the
bytes of the key `"bad"` are re-read in value position with matching
enabled and the scan returns true — the opposite of the claim on both
documents, as the reference semantics `mvMatches` computed alongside
records. -/
theorem c3_map_desync_on_multibyte_scalar :
    (wfMv (Mv.mmap [(Mv.mstr (cp "a"), Mv.muint8 200),
        (Mv.mstr (cp "user"), Mv.mstr (cp "bad"))]) = true ∧
      scanMsgpack (occursIn (cp "bad"))
          (encMv (Mv.mmap [(Mv.mstr (cp "a"), Mv.muint8 200),
            (Mv.mstr (cp "user"), Mv.mstr (cp "bad"))])) = false ∧
      mvMatches (occursIn (cp "bad"))
          (Mv.mmap [(Mv.mstr (cp "a"), Mv.muint8 200),
            (Mv.mstr (cp "user"), Mv.mstr (cp "bad"))]) = true) ∧
    (wfMv (Mv.mmap [(Mv.mstr (cp "a"), Mv.muint8 200),
        (Mv.mstr (cp "bad"), Mv.mstr (cp "ok"))]) = true ∧
      scanMsgpack (occursIn (cp "bad"))
          (encMv (Mv.mmap [(Mv.mstr (cp "a"), Mv.muint8 200),
            (Mv.mstr (cp "bad"), Mv.mstr (cp "ok"))])) = true ∧
      mvMatches (occursIn (cp "bad"))
          (Mv.mmap [(Mv.mstr (cp "a"), Mv.muint8 200),
            (Mv.mstr (cp "bad"), Mv.mstr (cp "ok"))]) = false) := by
  have henc1 : encMv (Mv.mmap [(Mv.mstr (cp "a"), Mv.muint8 200),
      (Mv.mstr (cp "user"), Mv.mstr (cp "bad"))])
      = [0x82, 0xa1, 97, 0xcc, 200, 0xa4, 117, 115, 101, 114, 0xa3, 98, 97, 100] := by
    decide
  have henc2 : encMv (Mv.mmap [(Mv.mstr (cp "a"), Mv.muint8 200),
      (Mv.mstr (cp "bad"), Mv.mstr (cp "ok"))])
      = [0x82, 0xa1, 97, 0xcc, 200, 0xa3, 98, 97, 100, 0xa2, 111, 107] := by
    decide
  have huser : occursIn (cp "bad") [117, 115, 101, 114] = false := by decide
  have hbad : occursIn (cp "bad") [98, 97, 100] = true := by decide
  refine ⟨⟨by decide, ?_, by decide⟩, ⟨by decide, ?_, by decide⟩⟩
  · rw [henc1]
    simp [scanMsgpack, traverse, traverseItems, traverseEntries, readStrData,
      readStrBody, readArrLen, readMapLen, utf8Decode, isStrMarker, isArrMarker,
      isMapMarker, be16, be32, huser, hbad]
  · rw [henc2]
    simp [scanMsgpack, traverse, traverseItems, traverseEntries, readStrData,
      readStrBody, readArrLen, readMapLen, utf8Decode, isStrMarker, isArrMarker,
      isMapMarker, be16, be32, hbad]

/-- C9: the traversal does begin with matching enabled — a banned word in a
well-formed top-level string is matched — but the code is wrong on the
claim's array half: the catch-all branch advances the cursor one byte
instead of skipping the uint 8 payload, so in the well-formed array
`[200, "bad"]` the string element is never decoded as a string and the scan
returns false, though the banned word is a string element of a top-level
array not inside any map key (the reference semantics `mvMatches` expects
true). -/
theorem c9_array_desync_on_multibyte_scalar :
    scanMsgpack (occursIn (cp "bad")) (encMv (Mv.mstr (cp "so bad"))) = true ∧
    (wfMv (Mv.marr [Mv.muint8 200, Mv.mstr (cp "bad")]) = true ∧
      scanMsgpack (occursIn (cp "bad"))
          (encMv (Mv.marr [Mv.muint8 200, Mv.mstr (cp "bad")])) = false ∧
      mvMatches (occursIn (cp "bad"))
          (Mv.marr [Mv.muint8 200, Mv.mstr (cp "bad")]) = true) := by
  have henc0 : encMv (Mv.mstr (cp "so bad")) = [166, 115, 111, 32, 98, 97, 100] := by
    decide
  have henc3 : encMv (Mv.marr [Mv.muint8 200, Mv.mstr (cp "bad")])
      = [0x92, 0xcc, 200, 0xa3, 98, 97, 100] := by
    decide
  have hsobad : occursIn (cp "bad") [115, 111, 32, 98, 97, 100] = true := by decide
  refine ⟨?_, by decide, ?_, by decide⟩
  · rw [henc0]
    simp [scanMsgpack, traverse, traverseItems, traverseEntries, readStrData,
      readStrBody, readArrLen, readMapLen, utf8Decode, isStrMarker, isArrMarker,
      isMapMarker, be16, be32, hsobad]
  · rw [henc3]
    simp [scanMsgpack, traverse, traverseItems, traverseEntries, readStrData,
      readStrBody, readArrLen, readMapLen, utf8Decode, isStrMarker, isArrMarker,
      isMapMarker, be16, be32]

end DenyRust
